import Mathlib

/-!
Verification of the Leave & Timesheet approval workflow of the HRMS repository
(React frontend in `src`; the REST backend is described by the specification).
Pure frontend facts (role lists, the sign-up payload) are embedded from the
source; backend operations are modelled from the specification where noted.
-/

namespace HRMS

/-- Error taxonomy of the specification (§7): validation, authorization,
state-transition and not-found failures. -/
inductive WfError where
  | validationError
  | authorizationError
  | stateError
  | notFoundError
deriving DecidableEq, Repr

/-- Leave request lifecycle states (§3). -/
inductive LeaveStatus where
  | pending
  | approved
  | rejected
deriving DecidableEq, Repr

/-- Time entry lifecycle states (§3). -/
inductive TEStatus where
  | draft
  | submitted
  | approved
  | rejected
deriving DecidableEq, Repr

/-- From the source (part_000, line 1447): the role list gating the
approve/reject buttons on the leave page (super_admin, admin, hr, manager). -/
def approverRoles : List String := ["super_admin", "admin", "hr", "manager"]

/-- From the source (part_000, line 1447): canApprove is true when the role of
the signed-in user is a member of the approver role list. -/
def canApprove (role : String) : Bool := approverRoles.contains role

/-- From the source (part_000, line 2117): the identical role list gating
manager actions on the timesheets page. -/
def isManager (role : String) : Bool :=
  (["super_admin", "admin", "hr", "manager"] : List String).contains role

/-- From the source (part_000, line 111): the public sign-up form posts
email, password, full_name and the fixed role hr, so every self-registered
account gets this role. -/
def signupRole : String := "hr"

/-- Modelled from the spec: LeaveType record (§3) — the backend collection is
not in `src`; only `days_allowed` and `carry_forward` matter to the workflow. -/
structure LeaveType where
  days_allowed : Nat
  carry_forward : Bool
deriving DecidableEq, Repr

/-- Modelled from the spec: LeaveRequest record (§3) — employee and leave type
are references (indices), dates are abstract day numbers, range inclusive. -/
structure LeaveRequest where
  employee : Nat
  leave_type : Nat
  start_date : Nat
  end_date : Nat
  status : LeaveStatus
deriving DecidableEq, Repr

/-- Modelled from the spec: the record store state the Leave Workflow Engine
acts on (§2, §4.1) — leave types and leave requests, each addressed by index. -/
structure LeaveSystem where
  leaveTypes : List LeaveType
  requests : List LeaveRequest
deriving DecidableEq, Repr

/-- The days covered by a request: the inclusive range from start to end. -/
def requestDays (r : LeaveRequest) : List Nat :=
  (List.range (r.end_date + 1 - r.start_date)).map (fun k => r.start_date + k)

/-- How many days of the request fall in calendar year `y`, for a calendar
given by `yearOf` (§4.2 mandates date-level counting: each day of an approved
range counts against the year it falls in). -/
def daysInYear (yearOf : Nat → Nat) (r : LeaveRequest) (y : Nat) : Nat :=
  (requestDays r).countP (fun d => yearOf d == y)

/-- The contribution of one request to the used-days total of
(employee `e`, type `t`, year `y`): its days in `y` if it is approved and
matches, else zero. -/
def usedContrib (yearOf : Nat → Nat) (e t y : Nat) (r : LeaveRequest) : Nat :=
  if r.status == LeaveStatus.approved && r.employee == e && r.leave_type == t then
    daysInYear yearOf r y
  else 0

/-- Modelled from the spec: `used_days` of the Balance Calculator (§3, §4.2) —
sum over approved requests of the employee and type of their days in the year. -/
def usedDays (yearOf : Nat → Nat) (reqs : List LeaveRequest) (e t y : Nat) : Nat :=
  (reqs.map (usedContrib yearOf e t y)).sum

/-- Modelled from the spec: `total_days` for a leave type (§3) — the annual
quota `days_allowed` of the referenced type, zero if the reference dangles. -/
def totalDays (lts : List LeaveType) (t : Nat) : Nat :=
  match lts.get? t with
  | some lt => lt.days_allowed
  | none => 0

/-- The quota check (§3 invariant, §8): granting request `r` keeps, for every
year its range touches, used days of its (employee, type) within `total_days`. -/
def quotaOk (yearOf : Nat → Nat) (s : LeaveSystem) (r : LeaveRequest) : Bool :=
  (requestDays r).all (fun d =>
    decide (usedDays yearOf s.requests r.employee r.leave_type (yearOf d) +
      daysInYear yearOf r (yearOf d) ≤ totalDays s.leaveTypes r.leave_type))

/-- Modelled from the spec: `approve(request_id, approver)` of the Leave
Workflow Engine (§4.1) — the backend handler is not in `src`. Checks in the
order the spec lists them: `AuthorizationError` unless the approver role is in
the approver set, `NotFoundError` for an unknown id, `StateError` unless the
request is still pending, and (§8 testable property) the approval is blocked
when it would push used days past the quota. -/
def approve (yearOf : Nat → Nat) (role : String) (id : Nat) (s : LeaveSystem) :
    Except WfError LeaveSystem :=
  if !canApprove role then Except.error WfError.authorizationError
  else
    match s.requests.get? id with
    | none => Except.error WfError.notFoundError
    | some r =>
      if r.status != LeaveStatus.pending then Except.error WfError.stateError
      else if quotaOk yearOf s r then
        Except.ok { s with requests := s.requests.set id { r with status := LeaveStatus.approved } }
      else Except.error WfError.validationError

/-- Modelled from the spec: `reject(request_id, approver)` (§4.1) — same
authorization and state checks as approve; sets status to rejected. -/
def reject (role : String) (id : Nat) (s : LeaveSystem) : Except WfError LeaveSystem :=
  if !canApprove role then Except.error WfError.authorizationError
  else
    match s.requests.get? id with
    | none => Except.error WfError.notFoundError
    | some r =>
      if r.status != LeaveStatus.pending then Except.error WfError.stateError
      else
        Except.ok { s with requests := s.requests.set id { r with status := LeaveStatus.rejected } }

/-- Modelled from the spec: `submitRequest(employee, leave_type, start_date,
end_date, reason)` (§4.1) — `ValidationError` if the range is inverted, the
leave type does not exist, or the requested duration would exceed the
remaining days of that employee for that type and year; otherwise a pending
request is appended. -/
def submitRequest (yearOf : Nat → Nat) (e t sd ed : Nat) (s : LeaveSystem) :
    Except WfError LeaveSystem :=
  if ed < sd then Except.error WfError.validationError
  else if s.leaveTypes.length ≤ t then Except.error WfError.validationError
  else if quotaOk yearOf s ⟨e, t, sd, ed, LeaveStatus.pending⟩ then
    Except.ok { s with requests := s.requests ++ [⟨e, t, sd, ed, LeaveStatus.pending⟩] }
  else Except.error WfError.validationError

/-- The operations of the Leave Workflow Engine (§4.1). -/
inductive LeaveOp where
  | submit (e t sd ed : Nat)
  | approveReq (role : String) (id : Nat)
  | rejectReq (role : String) (id : Nat)
deriving DecidableEq, Repr

/-- Dispatch a leave operation against the store. -/
def applyLeaveOp (yearOf : Nat → Nat) (op : LeaveOp) (s : LeaveSystem) :
    Except WfError LeaveSystem :=
  match op with
  | LeaveOp.submit e t sd ed => submitRequest yearOf e t sd ed s
  | LeaveOp.approveReq role id => approve yearOf role id s
  | LeaveOp.rejectReq role id => reject role id s

/-- The balance invariant (§3): for every employee, type and year, used days
never exceed total days. -/
def LeaveInvariant (yearOf : Nat → Nat) (s : LeaveSystem) : Prop :=
  ∀ e t y, usedDays yearOf s.requests e t y ≤ totalDays s.leaveTypes t

/-- Modelled from the spec: TimeEntry record (§3) — the backend collection is
not in `src`. Records carry their store id, as the REST API addresses entries
by id; `hours` is the JSON number, embedded as a rational. -/
structure TimeEntry where
  id : Nat
  employee : Nat
  project : Nat
  date : Nat
  hours : ℚ
  is_billable : Bool
  status : TEStatus
deriving DecidableEq, Repr

/-- Look an entry up by id, as the REST endpoints do. -/
def findEntry (l : List TimeEntry) (id : Nat) : Option TimeEntry :=
  l.find? (fun e => e.id == id)

/-- A store id not used by any current entry. -/
def freshId (l : List TimeEntry) : Nat :=
  (l.map TimeEntry.id).foldr max 0 + 1

/-- Modelled from the spec: the hours validation of `addEntry` (§4.3) —
`hours` must lie in [0.25, 24] and be a multiple of 0.25. A reduced rational
is a multiple of 1/4 exactly when its denominator divides 4. -/
def hoursValid (h : ℚ) : Bool :=
  decide (mkRat 1 4 ≤ h) && decide (h ≤ mkRat 24 1) && (4 % h.den == 0)

/-- Modelled from the spec: `addEntry(employee, project, date, hours,
description, is_billable)` (§4.3) — `ValidationError` when the hours are out
of range or off the quarter-hour grid, or when the project is not active;
otherwise a new entry is appended in status draft. -/
def addEntry (activeProjects : List Nat) (emp pid date : Nat) (h : ℚ)
    (billable : Bool) (l : List TimeEntry) : Except WfError (List TimeEntry) :=
  if !hoursValid h || !activeProjects.contains pid then
    Except.error WfError.validationError
  else
    Except.ok (l ++ [⟨freshId l, emp, pid, date, h, billable, TEStatus.draft⟩])

/-- Modelled from the spec: `deleteEntry(entry_id, requester)` (§4.3) —
`StateError` unless the entry is a draft owned by the requester;
`NotFoundError` for an unknown id (§7). -/
def deleteEntry (requester id : Nat) (l : List TimeEntry) :
    Except WfError (List TimeEntry) :=
  match findEntry l id with
  | none => Except.error WfError.notFoundError
  | some e =>
    if e.status == TEStatus.draft && e.employee == requester then
      Except.ok (l.filter (fun x => x.id != id))
    else Except.error WfError.stateError

/-- Does the whole batch qualify: every referenced id resolves to an entry of
the caller that is still a draft (§4.3). -/
def submitOk (employee : Nat) (l : List TimeEntry) (ids : List Nat) : Bool :=
  ids.all (fun id =>
    match findEntry l id with
    | some e => e.employee == employee && e.status == TEStatus.draft
    | none => false)

/-- The batched update of `submitWeek`: a conditional write per entry (§5
requires transitions to check the expected pre-state before writing). -/
def markSubmitted (ids : List Nat) (l : List TimeEntry) : List TimeEntry :=
  l.map (fun e =>
    if ids.contains e.id && e.status == TEStatus.draft then
      { e with status := TEStatus.submitted }
    else e)

/-- Modelled from the spec: `submitWeek(employee, week_start, entry_ids)`
(§4.3) — all-or-nothing: when any referenced entry is missing, not owned by
the caller, or not a draft, the whole batch fails with `ValidationError` and
nothing is written; otherwise every referenced entry becomes submitted. The
id batch is the one the client sends (source part_000 line 2208: the draft
entries of the displayed week). -/
def submitWeek (employee : Nat) (ids : List Nat) (l : List TimeEntry) :
    Except WfError (List TimeEntry) :=
  if submitOk employee l ids then Except.ok (markSubmitted ids l)
  else Except.error WfError.validationError

/-- Modelled from the spec: `approve(entry_id, approver)` for time entries
(§4.3) — same authorization gate as leave approval, requires status
submitted; the write is conditional on the expected pre-state (§5). -/
def approveEntry (role : String) (id : Nat) (l : List TimeEntry) :
    Except WfError (List TimeEntry) :=
  if !isManager role then Except.error WfError.authorizationError
  else
    match findEntry l id with
    | none => Except.error WfError.notFoundError
    | some e =>
      if e.status == TEStatus.submitted then
        Except.ok (l.map (fun x =>
          if x.id == id && x.status == TEStatus.submitted then
            { x with status := TEStatus.approved }
          else x))
      else Except.error WfError.stateError

/-- Modelled from the spec: `reject(entry_id, approver)` for time entries
(§4.3) — same checks as entry approval; sets status rejected. -/
def rejectEntry (role : String) (id : Nat) (l : List TimeEntry) :
    Except WfError (List TimeEntry) :=
  if !isManager role then Except.error WfError.authorizationError
  else
    match findEntry l id with
    | none => Except.error WfError.notFoundError
    | some e =>
      if e.status == TEStatus.submitted then
        Except.ok (l.map (fun x =>
          if x.id == id && x.status == TEStatus.submitted then
            { x with status := TEStatus.rejected }
          else x))
      else Except.error WfError.stateError

/-- The operations of the Timesheet Workflow Engine (§4.3). -/
inductive TimesheetOp where
  | add (activeProjects : List Nat) (emp pid date : Nat) (h : ℚ) (billable : Bool)
  | del (requester id : Nat)
  | submit (employee : Nat) (ids : List Nat)
  | approveTE (role : String) (id : Nat)
  | rejectTE (role : String) (id : Nat)

/-- Dispatch a timesheet operation against the entry store. -/
def applyTimesheetOp (op : TimesheetOp) (l : List TimeEntry) :
    Except WfError (List TimeEntry) :=
  match op with
  | TimesheetOp.add ap emp pid date h billable => addEntry ap emp pid date h billable l
  | TimesheetOp.del requester id => deleteEntry requester id l
  | TimesheetOp.submit employee ids => submitWeek employee ids l
  | TimesheetOp.approveTE role id => approveEntry role id l
  | TimesheetOp.rejectTE role id => rejectEntry role id l

/-- The legal single-step status moves of a TimeEntry (§3): stay put, draft
to submitted, or submitted to approved/rejected. -/
def chainStep (s t : TEStatus) : Bool :=
  s == t ||
  (s == TEStatus.draft && t == TEStatus.submitted) ||
  (s == TEStatus.submitted && (t == TEStatus.approved || t == TEStatus.rejected))

/-- From the source (part_000, lines 2141-2150): `getWeekDates` builds the
seven consecutive dates starting at the week start. -/
def getWeekDates (week_start : Nat) : List Nat :=
  (List.range 7).map (fun i => week_start + i)

/-- The weekly summary payload of `GET /api/timesheets/summary` (§6). -/
structure WeekSummary where
  total_hours : ℚ
  billable_hours : ℚ
  non_billable_hours : ℚ
  billable_percentage : ℤ
deriving DecidableEq, Repr

/-- Modelled from the spec: `weeklySummary(employee, week_start)` (§4.3) —
sums the hours of the entries of the employee dated inside the 7-day window,
splits them by billability, and rounds the billable percentage, zero when
there are no hours. -/
def weeklySummary (l : List TimeEntry) (emp week_start : Nat) : WeekSummary :=
  let wk := l.filter (fun e => e.employee == emp && (getWeekDates week_start).contains e.date)
  let total := wk.foldl (fun a e => a + e.hours) 0
  let billable := wk.foldl (fun a e => if e.is_billable then a + e.hours else a) 0
  { total_hours := total
    billable_hours := billable
    non_billable_hours := total - billable
    billable_percentage := if 0 < total then round (billable / total * 100) else 0 }

/-- Modelled from the spec: AttendanceRecord of one employee for one calendar
day (§3) — optional check-in and check-out timestamps and a status string. -/
structure AttendanceRecord where
  check_in : Option Nat
  check_out : Option Nat
  status : String
deriving DecidableEq, Repr

/-- A record never checked out before checking in: a check-out implies a
check-in. States reachable by the tracker all satisfy this. -/
def attOk : Option AttendanceRecord → Bool
  | none => true
  | some r => !r.check_out.isSome || r.check_in.isSome

/-- Where the day stands in the `NoRecord → CheckedIn → CheckedOut` machine
(§4.4): 0 before any check-in, 1 once checked in, 2 once checked out. -/
def attendancePhase : Option AttendanceRecord → Nat
  | none => 0
  | some r => if r.check_out.isSome then 2 else if r.check_in.isSome then 1 else 0

/-- Modelled from the spec: `clockIn(employee)` (§4.4) — `StateError` when
the day already has a check-in; otherwise the day record gets
`check_in = now` and status present. -/
def clockIn (now : Nat) : Option AttendanceRecord → Except WfError AttendanceRecord
  | some r =>
    if r.check_in.isSome then Except.error WfError.stateError
    else Except.ok { r with check_in := some now, status := "present" }
  | none => Except.ok ⟨some now, none, "present"⟩

/-- Modelled from the spec: `clockOut(employee)` (§4.4) — `StateError` when
there is no check-in yet or the check-out is already set; otherwise the
record gets `check_out = now`. -/
def clockOut (now : Nat) : Option AttendanceRecord → Except WfError AttendanceRecord
  | none => Except.error WfError.stateError
  | some r =>
    match r.check_in with
    | none => Except.error WfError.stateError
    | some _ =>
      if r.check_out.isSome then Except.error WfError.stateError
      else Except.ok { r with check_out := some now }

end HRMS

namespace HRMS

/-- Setting one position of a Nat list shifts its sum by the difference
between the new and the old element. -/
theorem sum_set_nat :
    ∀ (l : List Nat) (i : Nat) (a b : Nat), l.get? i = some a →
      (l.set i b).sum + a = l.sum + b
  | [], _, _, _, h => by cases h
  | x :: xs, 0, a, b, h => by
    injection h with h
    subst h
    simp [List.set]
    omega
  | x :: xs, i + 1, a, b, h => by
    have ih := sum_set_nat xs i a b h
    simp [List.set]
    omega

/-- A request that is not approved contributes nothing to used days. -/
theorem usedContrib_of_ne (yearOf : Nat → Nat) (e t y : Nat) (r : LeaveRequest)
    (h : r.status ≠ LeaveStatus.approved) : usedContrib yearOf e t y r = 0 := by
  have hb : (r.status == LeaveStatus.approved) = false := by simpa using h
  simp [usedContrib, hb]

/-- Used days after overwriting one stored request, in terms of the old and
new contributions of that slot. -/
theorem usedDays_set (yearOf : Nat → Nat) (reqs : List LeaveRequest) (i : Nat)
    (a b : LeaveRequest) (e t y : Nat) (h : reqs.get? i = some a) :
    usedDays yearOf (reqs.set i b) e t y + usedContrib yearOf e t y a =
      usedDays yearOf reqs e t y + usedContrib yearOf e t y b := by
  have hm : (reqs.map (usedContrib yearOf e t y)).get? i =
      some (usedContrib yearOf e t y a) := by
    rw [List.get?_eq_getElem?, List.getElem?_map, ← List.get?_eq_getElem?, h]
    rfl
  have := sum_set_nat (reqs.map (usedContrib yearOf e t y)) i
    (usedContrib yearOf e t y a) (usedContrib yearOf e t y b) hm
  unfold usedDays
  rw [List.map_set]
  exact this

/-- Appending one request adds exactly its contribution to used days. -/
theorem usedDays_append (yearOf : Nat → Nat) (reqs : List LeaveRequest)
    (r : LeaveRequest) (e t y : Nat) :
    usedDays yearOf (reqs ++ [r]) e t y =
      usedDays yearOf reqs e t y + usedContrib yearOf e t y r := by
  simp [usedDays]

/-- A store whose requests are all unapproved satisfies the balance
invariant outright. -/
theorem leaveInvariant_of_unapproved (yearOf : Nat → Nat) (s : LeaveSystem)
    (h : ∀ r ∈ s.requests, r.status ≠ LeaveStatus.approved) :
    LeaveInvariant yearOf s := by
  intro e t y
  have hz : usedDays yearOf s.requests e t y = 0 := by
    apply List.sum_eq_zero
    intro x hx
    obtain ⟨r, hr, rfl⟩ := List.mem_map.mp hx
    exact usedContrib_of_ne yearOf e t y r (h r hr)
  rw [hz]
  exact Nat.zero_le _

/-- A successful approval preserves the balance invariant: the quota check
admits the newly approved request into every year it touches. -/
theorem approve_preserves (yearOf : Nat → Nat) (role : String) (id : Nat)
    (s s' : LeaveSystem) (hinv : LeaveInvariant yearOf s)
    (h : approve yearOf role id s = Except.ok s') : LeaveInvariant yearOf s' := by
  unfold approve at h
  split at h
  · cases h
  · split at h
    · cases h
    · rename_i r heq
      split at h
      · cases h
      · rename_i hnp
        split at h
        · rename_i hq
          injection h with h
          subst h
          have hpend : r.status = LeaveStatus.pending := by simpa using hnp
          intro e t y
          have hzero : usedContrib yearOf e t y r = 0 :=
            usedContrib_of_ne yearOf e t y r (by rw [hpend]; intro hc; cases hc)
          have hset := usedDays_set yearOf s.requests id r
            { r with status := LeaveStatus.approved } e t y heq
          rw [hzero] at hset
          show usedDays yearOf
              (s.requests.set id { r with status := LeaveStatus.approved }) e t y ≤
            totalDays s.leaveTypes t
          by_cases hmatch : r.employee = e ∧ r.leave_type = t
          · obtain ⟨he, ht⟩ := hmatch
            have hcontrib : usedContrib yearOf e t y
                { r with status := LeaveStatus.approved } = daysInYear yearOf r y := by
              simp [usedContrib, he, ht]
              rfl
            rw [hcontrib] at hset
            by_cases hdz : daysInYear yearOf r y = 0
            · have := hinv e t y
              omega
            · obtain ⟨d, hd, hyd⟩ :=
                List.countP_pos_iff.mp (Nat.pos_of_ne_zero hdz)
              have hy : yearOf d = y := by simpa using hyd
              have hall := List.all_eq_true.mp hq d hd
              have hineq := of_decide_eq_true hall
              rw [hy, he, ht] at hineq
              omega
          · have hcontrib : usedContrib yearOf e t y
                { r with status := LeaveStatus.approved } = 0 := by
              rcases not_and_or.mp hmatch with hne | hne <;>
                simp [usedContrib, hne]
            rw [hcontrib] at hset
            have := hinv e t y
            omega
        · cases h

/-- A successful rejection preserves the balance invariant: used days are
untouched. -/
theorem reject_preserves (yearOf : Nat → Nat) (role : String) (id : Nat)
    (s s' : LeaveSystem) (hinv : LeaveInvariant yearOf s)
    (h : reject role id s = Except.ok s') : LeaveInvariant yearOf s' := by
  unfold reject at h
  split at h
  · cases h
  · split at h
    · cases h
    · rename_i r heq
      split at h
      · cases h
      · rename_i hnp
        injection h with h
        subst h
        have hpend : r.status = LeaveStatus.pending := by simpa using hnp
        intro e t y
        have hzero : usedContrib yearOf e t y r = 0 :=
          usedContrib_of_ne yearOf e t y r (by rw [hpend]; intro hc; cases hc)
        have hzero' : usedContrib yearOf e t y
            { r with status := LeaveStatus.rejected } = 0 :=
          usedContrib_of_ne yearOf e t y _ (by intro hc; cases hc)
        have hset := usedDays_set yearOf s.requests id r
          { r with status := LeaveStatus.rejected } e t y heq
        rw [hzero, hzero'] at hset
        show usedDays yearOf
            (s.requests.set id { r with status := LeaveStatus.rejected }) e t y ≤
          totalDays s.leaveTypes t
        have := hinv e t y
        omega

/-- A successful submission preserves the balance invariant: the new request
is pending, so used days are untouched. -/
theorem submit_preserves (yearOf : Nat → Nat) (e t sd ed : Nat)
    (s s' : LeaveSystem) (hinv : LeaveInvariant yearOf s)
    (h : submitRequest yearOf e t sd ed s = Except.ok s') : LeaveInvariant yearOf s' := by
  unfold submitRequest at h
  split at h
  · cases h
  · split at h
    · cases h
    · split at h
      · injection h with h
        subst h
        intro e' t' y
        have happ := usedDays_append yearOf s.requests
          ⟨e, t, sd, ed, LeaveStatus.pending⟩ e' t' y
        have hzero : usedContrib yearOf e' t' y
            ⟨e, t, sd, ed, LeaveStatus.pending⟩ = 0 :=
          usedContrib_of_ne yearOf e' t' y _ (by intro hc; cases hc)
        show usedDays yearOf
            (s.requests ++ [⟨e, t, sd, ed, LeaveStatus.pending⟩]) e' t' y ≤
          totalDays s.leaveTypes t'
        rw [happ, hzero]
        have := hinv e' t' y
        omega
      · cases h

/-- Staying put is always a legal chain move. -/
theorem chainStep_self (s : TEStatus) : chainStep s s = true := by
  cases s <;> rfl

/-- In a store with no duplicate ids, looking up the id of a member finds
exactly that member. -/
theorem findEntry_self :
    ∀ (l : List TimeEntry), (l.map TimeEntry.id).Nodup →
      ∀ e ∈ l, findEntry l e.id = some e
  | [], _, e, he => by cases he
  | x :: xs, hnd, e, he => by
    rw [List.map_cons, List.nodup_cons] at hnd
    cases he with
    | head => simp [findEntry]
    | tail _ hmem =>
      have hne : x.id ≠ e.id := by
        intro hx
        exact hnd.1 (hx ▸ List.mem_map_of_mem TimeEntry.id hmem)
      have : (x.id == e.id) = false := by simpa using hne
      simp only [findEntry, List.find?]
      rw [this]
      exact findEntry_self xs hnd.2 e hmem

/-- Folding addition of hours over a list equals the accumulator plus the sum
of the mapped hours. -/
theorem foldl_add_hours :
    ∀ (l : List TimeEntry) (a : ℚ),
      l.foldl (fun x e => x + e.hours) a = a + (l.map TimeEntry.hours).sum
  | [], a => by simp
  | x :: xs, a => by
    rw [List.foldl_cons, foldl_add_hours xs (a + x.hours)]
    simp [add_assoc]

/-- Folding conditional addition of billable hours equals the accumulator
plus the sum of hours over the billable entries. -/
theorem foldl_add_billable :
    ∀ (l : List TimeEntry) (a : ℚ),
      l.foldl (fun x e => if e.is_billable then x + e.hours else x) a =
        a + ((l.filter (fun e => e.is_billable)).map TimeEntry.hours).sum
  | [], a => by simp
  | x :: xs, a => by
    rw [List.foldl_cons]
    cases hb : x.is_billable with
    | true =>
      rw [if_pos rfl, foldl_add_billable xs (a + x.hours)]
      simp [List.filter_cons, hb, add_assoc]
    | false =>
      rw [if_neg (by simp), foldl_add_billable xs a]
      simp [List.filter_cons, hb]

/-- The week-date list of the source holds exactly the dates of the 7-day
window starting at the week start. -/
theorem getWeekDates_contains (ws d : Nat) :
    (getWeekDates ws).contains d = true ↔ ws ≤ d ∧ d < ws + 7 := by
  simp only [getWeekDates, List.contains_iff_exists_mem_beq]
  constructor
  · rintro ⟨x, hx, hbeq⟩
    obtain ⟨i, hi, rfl⟩ := List.mem_map.mp hx
    rw [List.mem_range] at hi
    have : d = ws + i := by simpa using hbeq
    omega
  · rintro ⟨h1, h2⟩
    refine ⟨d, List.mem_map.mpr ⟨d - ws, List.mem_range.mpr (by omega), by omega⟩, by simp⟩

/-- A reduced rational whose denominator divides 4 is an integer number of
quarters. -/
theorem den_dvd_four (q : ℚ) (h : q.den ∣ 4) : ∃ n : ℤ, q = n / 4 := by
  obtain ⟨k, hk⟩ := h
  refine ⟨q.num * k, ?_⟩
  have hk0 : (k : ℚ) ≠ 0 := by
    rintro hk0
    have : k = 0 := by exact_mod_cast hk0
    rw [this] at hk
    simp at hk
  have h4 : (4 : ℚ) = (q.den : ℚ) * k := by exact_mod_cast hk
  have hqd : q * (q.den : ℚ) = q.num := by
    rw [mul_comm]
    exact_mod_cast Rat.den_mul_eq_num q
  push_cast
  rw [eq_div_iff (by norm_num : (4 : ℚ) ≠ 0), h4, ← mul_assoc, hqd]

/-- An integer number of quarters has denominator dividing 4. -/
theorem den_dvd_four_of_quarter (q : ℚ) (n : ℤ) (h : q = n / 4) : q.den ∣ 4 := by
  have hdvd := Rat.den_dvd n 4
  rw [Rat.divInt_eq_div] at hdvd
  rw [h]
  exact_mod_cast hdvd

/-- The lower bound used by the hours check is a quarter hour. -/
theorem mkRat_one_four : (mkRat 1 4 : ℚ) = 1 / 4 := by
  norm_num [Rat.mkRat_eq_div]

/-- The upper bound used by the hours check is twenty-four hours. -/
theorem mkRat_twentyfour : (mkRat 24 1 : ℚ) = 24 := by
  norm_num [Rat.mkRat_eq_div]

end HRMS

/-- C1: once a LeaveRequest is approved or rejected its status is immutable —
any further approve or reject by an authorized approver fails with StateError,
and the error return writes nothing, leaving the request unchanged. -/
theorem C1_resolved_leave_request_immutable (yearOf : Nat → Nat) (role : String)
    (id : Nat) (s : HRMS.LeaveSystem) (r : HRMS.LeaveRequest)
    (hrole : HRMS.canApprove role = true)
    (hget : s.requests.get? id = some r)
    (hres : r.status = HRMS.LeaveStatus.approved ∨ r.status = HRMS.LeaveStatus.rejected) :
    HRMS.approve yearOf role id s = Except.error HRMS.WfError.stateError ∧
    HRMS.reject role id s = Except.error HRMS.WfError.stateError := by
  have hbne : (r.status != HRMS.LeaveStatus.pending) = true := by
    rcases hres with h | h <;> rw [h] <;> rfl
  constructor
  · unfold HRMS.approve
    rw [hrole]
    simp only [Bool.not_true, Bool.false_eq_true, if_false, hget, hbne, if_true]
  · unfold HRMS.reject
    rw [hrole]
    simp only [Bool.not_true, Bool.false_eq_true, if_false, hget, hbne, if_true]

/-- C1 witness: a concrete approved request stays immutable. -/
theorem C1_witness :
    HRMS.canApprove ("hr") = true ∧
    (HRMS.LeaveSystem.mk [⟨12, false⟩]
        [⟨0, 0, 0, 4, HRMS.LeaveStatus.approved⟩]).requests.get? 0 =
      some ⟨0, 0, 0, 4, HRMS.LeaveStatus.approved⟩ ∧
    HRMS.approve (fun _ => 0) "hr" 0
        (HRMS.LeaveSystem.mk [⟨12, false⟩] [⟨0, 0, 0, 4, HRMS.LeaveStatus.approved⟩]) =
      Except.error HRMS.WfError.stateError ∧
    HRMS.reject ("hr") 0
        (HRMS.LeaveSystem.mk [⟨12, false⟩] [⟨0, 0, 0, 4, HRMS.LeaveStatus.approved⟩]) =
      Except.error HRMS.WfError.stateError :=
  ⟨rfl, rfl,
    (C1_resolved_leave_request_immutable (fun _ => 0) "hr" 0
      (HRMS.LeaveSystem.mk [⟨12, false⟩] [⟨0, 0, 0, 4, HRMS.LeaveStatus.approved⟩])
      ⟨0, 0, 0, 4, HRMS.LeaveStatus.approved⟩ rfl rfl (Or.inl rfl)).1,
    (C1_resolved_leave_request_immutable (fun _ => 0) "hr" 0
      (HRMS.LeaveSystem.mk [⟨12, false⟩] [⟨0, 0, 0, 4, HRMS.LeaveStatus.approved⟩])
      ⟨0, 0, 0, 4, HRMS.LeaveStatus.approved⟩ rfl rfl (Or.inl rfl)).2⟩

/-- C5: approving or rejecting a leave request fails with AuthorizationError
unless the approver role is super_admin, admin, hr or manager; the modelled
server-side handlers check the role before anything else, for every request. -/
theorem C5_approve_requires_role :
    (∀ role : String, HRMS.canApprove role = true ↔
      role = "super_admin" ∨ role = "admin" ∨ role = "hr" ∨ role = "manager") ∧
    ∀ (yearOf : Nat → Nat) (role : String) (id : Nat) (s : HRMS.LeaveSystem),
      HRMS.canApprove role = false →
      HRMS.approve yearOf role id s = Except.error HRMS.WfError.authorizationError ∧
      HRMS.reject role id s = Except.error HRMS.WfError.authorizationError := by
  constructor
  · intro role
    rw [HRMS.canApprove, HRMS.approverRoles, List.contains_iff_exists_mem_beq]
    simp
  · intro yearOf role id s h
    constructor
    · unfold HRMS.approve
      rw [h]
      rfl
    · unfold HRMS.reject
      rw [h]
      rfl

/-- C5 witness: a plain employee role is turned away by both handlers. -/
theorem C5_witness :
    HRMS.canApprove ("employee") = false ∧
    HRMS.approve (fun _ => 0) "employee" 0 (HRMS.LeaveSystem.mk [] []) =
      Except.error HRMS.WfError.authorizationError ∧
    HRMS.reject ("employee") 0 (HRMS.LeaveSystem.mk [] []) =
      Except.error HRMS.WfError.authorizationError :=
  ⟨rfl, (C5_approve_requires_role.2 (fun _ => 0) "employee" 0 _ rfl).1,
    (C5_approve_requires_role.2 (fun _ => 0) "employee" 0 _ rfl).2⟩

/-- C9: submitRequest rejects an inverted date range, an unknown leave type,
and a duration that would exceed the remaining quota, each with
ValidationError; when none of these hold it appends the request in status
pending, and every successful submission satisfies start_date ≤ end_date. -/
theorem C9_submit_request_validation (yearOf : Nat → Nat) (e t sd ed : Nat)
    (s : HRMS.LeaveSystem) :
    (ed < sd →
      HRMS.submitRequest yearOf e t sd ed s = Except.error HRMS.WfError.validationError) ∧
    (s.leaveTypes.length ≤ t →
      HRMS.submitRequest yearOf e t sd ed s = Except.error HRMS.WfError.validationError) ∧
    (HRMS.quotaOk yearOf s ⟨e, t, sd, ed, HRMS.LeaveStatus.pending⟩ = false →
      HRMS.submitRequest yearOf e t sd ed s = Except.error HRMS.WfError.validationError) ∧
    (sd ≤ ed → t < s.leaveTypes.length →
      HRMS.quotaOk yearOf s ⟨e, t, sd, ed, HRMS.LeaveStatus.pending⟩ = true →
      HRMS.submitRequest yearOf e t sd ed s =
        Except.ok { s with requests := s.requests ++ [⟨e, t, sd, ed, HRMS.LeaveStatus.pending⟩] }) ∧
    ∀ s', HRMS.submitRequest yearOf e t sd ed s = Except.ok s' →
      sd ≤ ed ∧
      s' = { s with requests := s.requests ++ [⟨e, t, sd, ed, HRMS.LeaveStatus.pending⟩] } := by
  unfold HRMS.submitRequest
  by_cases h1 : ed < sd
  · rw [if_pos h1]
    refine ⟨fun _ => rfl, fun _ => rfl, fun _ => rfl,
      fun hle _ _ => absurd h1 (not_lt.mpr hle), ?_⟩
    intro s' hs'
    cases hs'
  · rw [if_neg h1]
    by_cases h2 : s.leaveTypes.length ≤ t
    · rw [if_pos h2]
      refine ⟨fun hc => absurd hc h1, fun _ => rfl, fun _ => rfl,
        fun _ hlt _ => absurd h2 (not_le.mpr hlt), ?_⟩
      intro s' hs'
      cases hs'
    · rw [if_neg h2]
      by_cases h3 : HRMS.quotaOk yearOf s ⟨e, t, sd, ed, HRMS.LeaveStatus.pending⟩
      · rw [if_pos h3]
        refine ⟨fun hc => absurd hc h1, fun hc => absurd hc h2, ?_, fun _ _ _ => rfl, ?_⟩
        · intro hc
          rw [h3] at hc
          cases hc
        · intro s' hs'
          injection hs' with hs'
          exact ⟨by omega, hs'.symm⟩
      · rw [if_neg h3]
        have h3f : HRMS.quotaOk yearOf s ⟨e, t, sd, ed, HRMS.LeaveStatus.pending⟩ = false := by
          simpa using h3
        refine ⟨fun hc => absurd hc h1, fun hc => absurd hc h2, fun _ => rfl, ?_, ?_⟩
        · intro _ _ hc
          rw [h3f] at hc
          cases hc
        · intro s' hs'
          cases hs'

/-- C9 witness: a well-formed two-day request against a fresh quota is
created in status pending. -/
theorem C9_witness :
    (2 : Nat) ≤ 3 ∧
    (0 : Nat) < (HRMS.LeaveSystem.mk [⟨12, false⟩] []).leaveTypes.length ∧
    HRMS.quotaOk (fun _ => 0) (HRMS.LeaveSystem.mk [⟨12, false⟩] [])
      ⟨0, 0, 2, 3, HRMS.LeaveStatus.pending⟩ = true ∧
    HRMS.submitRequest (fun _ => 0) 0 0 2 3 (HRMS.LeaveSystem.mk [⟨12, false⟩] []) =
      Except.ok (HRMS.LeaveSystem.mk [⟨12, false⟩] [⟨0, 0, 2, 3, HRMS.LeaveStatus.pending⟩]) :=
  ⟨by decide, by decide, rfl,
    (C9_submit_request_validation (fun _ => 0) 0 0 2 3 _).2.2.2.1 (by decide) (by decide) rfl⟩

/-- C2: the balance invariant — for every employee, leave type and year the
used days of approved requests never exceed total_days — is preserved by
every leave operation, and an approval whose added days would exceed the
quota is blocked: it never returns a new store. -/
theorem C2_leave_quota_invariant :
    (∀ (yearOf : Nat → Nat) (op : HRMS.LeaveOp) (s u : HRMS.LeaveSystem),
      HRMS.LeaveInvariant yearOf s → HRMS.applyLeaveOp yearOf op s = Except.ok u →
      HRMS.LeaveInvariant yearOf u) ∧
    ∀ (yearOf : Nat → Nat) (role : String) (id : Nat) (s : HRMS.LeaveSystem)
      (r : HRMS.LeaveRequest),
      s.requests.get? id = some r → HRMS.quotaOk yearOf s r = false →
      ∀ u, HRMS.approve yearOf role id s ≠ Except.ok u := by
  constructor
  · intro yearOf op s u hinv h
    cases op with
    | submit e ty sd ed => exact HRMS.submit_preserves yearOf e ty sd ed s u hinv h
    | approveReq role id => exact HRMS.approve_preserves yearOf role id s u hinv h
    | rejectReq role id => exact HRMS.reject_preserves yearOf role id s u hinv h
  · intro yearOf role id s r hget hq u hok
    unfold HRMS.approve at hok
    split at hok
    · cases hok
    · split at hok
      · cases hok
      · rename_i r2 heq
        rw [hget] at heq
        injection heq with heq
        subst heq
        split at hok
        · cases hok
        · split at hok
          · rename_i htrue
            rw [hq] at htrue
            cases htrue
          · cases hok

/-- C2 witness: the §8 scenario — a 12-day quota, a 5-day and an 8-day
request; approving the first keeps the invariant, approving the second is
blocked because 5 + 8 exceeds 12. -/
theorem C2_witness :
    HRMS.LeaveInvariant (fun _ => 0)
      (HRMS.LeaveSystem.mk [⟨12, false⟩]
        [⟨0, 0, 0, 4, HRMS.LeaveStatus.pending⟩, ⟨0, 0, 10, 17, HRMS.LeaveStatus.pending⟩]) ∧
    HRMS.applyLeaveOp (fun _ => 0) (HRMS.LeaveOp.approveReq ("hr") 0)
      (HRMS.LeaveSystem.mk [⟨12, false⟩]
        [⟨0, 0, 0, 4, HRMS.LeaveStatus.pending⟩, ⟨0, 0, 10, 17, HRMS.LeaveStatus.pending⟩]) =
      Except.ok (HRMS.LeaveSystem.mk [⟨12, false⟩]
        [⟨0, 0, 0, 4, HRMS.LeaveStatus.approved⟩, ⟨0, 0, 10, 17, HRMS.LeaveStatus.pending⟩]) ∧
    HRMS.LeaveInvariant (fun _ => 0)
      (HRMS.LeaveSystem.mk [⟨12, false⟩]
        [⟨0, 0, 0, 4, HRMS.LeaveStatus.approved⟩, ⟨0, 0, 10, 17, HRMS.LeaveStatus.pending⟩]) ∧
    (HRMS.LeaveSystem.mk [⟨12, false⟩]
        [⟨0, 0, 0, 4, HRMS.LeaveStatus.approved⟩,
          ⟨0, 0, 10, 17, HRMS.LeaveStatus.pending⟩]).requests.get? 1 =
      some ⟨0, 0, 10, 17, HRMS.LeaveStatus.pending⟩ ∧
    HRMS.quotaOk (fun _ => 0)
      (HRMS.LeaveSystem.mk [⟨12, false⟩]
        [⟨0, 0, 0, 4, HRMS.LeaveStatus.approved⟩, ⟨0, 0, 10, 17, HRMS.LeaveStatus.pending⟩])
      ⟨0, 0, 10, 17, HRMS.LeaveStatus.pending⟩ = false ∧
    HRMS.approve (fun _ => 0) "hr" 1
      (HRMS.LeaveSystem.mk [⟨12, false⟩]
        [⟨0, 0, 0, 4, HRMS.LeaveStatus.approved⟩, ⟨0, 0, 10, 17, HRMS.LeaveStatus.pending⟩]) ≠
      Except.ok (HRMS.LeaveSystem.mk [⟨12, false⟩]
        [⟨0, 0, 0, 4, HRMS.LeaveStatus.approved⟩, ⟨0, 0, 10, 17, HRMS.LeaveStatus.pending⟩]) :=
  ⟨HRMS.leaveInvariant_of_unapproved (fun _ => 0)
      (HRMS.LeaveSystem.mk [⟨12, false⟩]
        [⟨0, 0, 0, 4, HRMS.LeaveStatus.pending⟩, ⟨0, 0, 10, 17, HRMS.LeaveStatus.pending⟩])
      (by decide), rfl,
    C2_leave_quota_invariant.1 (fun _ => 0) (HRMS.LeaveOp.approveReq ("hr") 0)
      (HRMS.LeaveSystem.mk [⟨12, false⟩]
        [⟨0, 0, 0, 4, HRMS.LeaveStatus.pending⟩, ⟨0, 0, 10, 17, HRMS.LeaveStatus.pending⟩])
      (HRMS.LeaveSystem.mk [⟨12, false⟩]
        [⟨0, 0, 0, 4, HRMS.LeaveStatus.approved⟩, ⟨0, 0, 10, 17, HRMS.LeaveStatus.pending⟩])
      (HRMS.leaveInvariant_of_unapproved (fun _ => 0)
        (HRMS.LeaveSystem.mk [⟨12, false⟩]
          [⟨0, 0, 0, 4, HRMS.LeaveStatus.pending⟩, ⟨0, 0, 10, 17, HRMS.LeaveStatus.pending⟩])
        (by decide)) rfl,
    rfl, rfl,
    C2_leave_quota_invariant.2 (fun _ => 0) "hr" 1
      (HRMS.LeaveSystem.mk [⟨12, false⟩]
        [⟨0, 0, 0, 4, HRMS.LeaveStatus.approved⟩, ⟨0, 0, 10, 17, HRMS.LeaveStatus.pending⟩])
      ⟨0, 0, 10, 17, HRMS.LeaveStatus.pending⟩ rfl rfl
      (HRMS.LeaveSystem.mk [⟨12, false⟩]
        [⟨0, 0, 0, 4, HRMS.LeaveStatus.approved⟩, ⟨0, 0, 10, 17, HRMS.LeaveStatus.pending⟩])⟩

/-- C3: submitWeek is all-or-nothing — if any referenced entry is missing,
not owned by the caller, or not in draft, the call fails with
ValidationError and no entry transitions (no new store is produced);
otherwise every referenced entry transitions to submitted and the rest are
kept as they were. -/
theorem C3_submit_week_all_or_nothing :
    (∀ (employee : Nat) (ids : List Nat) (l : List HRMS.TimeEntry) (id : Nat),
      id ∈ ids →
      (¬ ∃ e, HRMS.findEntry l id = some e ∧ e.employee = employee ∧
        e.status = HRMS.TEStatus.draft) →
      HRMS.submitWeek employee ids l = Except.error HRMS.WfError.validationError) ∧
    ∀ (employee : Nat) (ids : List Nat) (l : List HRMS.TimeEntry),
      (l.map HRMS.TimeEntry.id).Nodup →
      (∀ id ∈ ids, ∃ e, HRMS.findEntry l id = some e ∧ e.employee = employee ∧
        e.status = HRMS.TEStatus.draft) →
      HRMS.submitWeek employee ids l = Except.ok (HRMS.markSubmitted ids l) ∧
      ∀ e2 ∈ HRMS.markSubmitted ids l,
        (e2.id ∈ ids → e2.status = HRMS.TEStatus.submitted) ∧
        (e2.id ∉ ids → e2 ∈ l) := by
  constructor
  · intro employee ids l id hid hbad
    cases hok : HRMS.submitOk employee l ids with
    | false => simp [HRMS.submitWeek, hok]
    | true =>
      exfalso
      have hthis := List.all_eq_true.mp hok id hid
      cases hf : HRMS.findEntry l id with
      | none => rw [hf] at hthis; cases hthis
      | some e =>
        rw [hf] at hthis
        simp only [Bool.and_eq_true, beq_iff_eq] at hthis
        exact hbad ⟨e, hf, hthis.1, hthis.2⟩
  · intro employee ids l hnd hall
    have hok : HRMS.submitOk employee l ids = true := by
      apply List.all_eq_true.mpr
      intro id hid
      obtain ⟨e, hf, hemp, hst⟩ := hall id hid
      show (match HRMS.findEntry l id with
        | some e => e.employee == employee && e.status == HRMS.TEStatus.draft
        | none => false) = true
      rw [hf]
      simp [hemp, hst]
    refine ⟨by simp [HRMS.submitWeek, hok], ?_⟩
    intro e2 he2
    obtain ⟨e, he, rfl⟩ := List.mem_map.mp he2
    have hid2 : (if ids.contains e.id && e.status == HRMS.TEStatus.draft then
        { e with status := HRMS.TEStatus.submitted } else e).id = e.id := by
      by_cases hc : (ids.contains e.id && e.status == HRMS.TEStatus.draft) = true
      · rw [if_pos hc]
      · rw [if_neg hc]
    constructor
    · intro hmem
      rw [hid2] at hmem
      obtain ⟨e0, hf0, hemp0, hst0⟩ := hall e.id hmem
      have hfe := HRMS.findEntry_self l hnd e he
      rw [hfe] at hf0
      injection hf0 with hf0
      subst hf0
      have hcont : ids.contains e.id = true := by
        simpa using hmem
      have hc : (ids.contains e.id && e.status == HRMS.TEStatus.draft) = true := by
        rw [hcont, hst0]
        rfl
      rw [if_pos hc]
    · intro hmem
      rw [hid2] at hmem
      have hcont : ids.contains e.id = false := by
        simpa using hmem
      have hc : (ids.contains e.id && e.status == HRMS.TEStatus.draft) = false := by
        rw [hcont]
        rfl
      rw [if_neg (by rw [hc]; intro hcc; cases hcc)]
      exact he

/-- C3 witness: a mixed batch over one draft and one submitted entry fails
whole, and a clean one-draft batch transitions it. -/
theorem C3_witness :
    (2 : Nat) ∈ [1, 2] ∧
    HRMS.submitWeek 0 [1, 2]
        [⟨1, 0, 0, 0, 1, true, HRMS.TEStatus.draft⟩,
          ⟨2, 0, 0, 0, 1, true, HRMS.TEStatus.submitted⟩] =
      Except.error HRMS.WfError.validationError ∧
    ((([⟨1, 0, 0, 0, 1, true, HRMS.TEStatus.draft⟩] : List HRMS.TimeEntry)).map
        HRMS.TimeEntry.id).Nodup ∧
    HRMS.submitWeek 0 [1] [⟨1, 0, 0, 0, 1, true, HRMS.TEStatus.draft⟩] =
      Except.ok (HRMS.markSubmitted [1] [⟨1, 0, 0, 0, 1, true, HRMS.TEStatus.draft⟩]) :=
  ⟨List.mem_cons_of_mem 1 (List.mem_singleton.mpr rfl),
    C3_submit_week_all_or_nothing.1 0 [1, 2]
      [⟨1, 0, 0, 0, 1, true, HRMS.TEStatus.draft⟩,
        ⟨2, 0, 0, 0, 1, true, HRMS.TEStatus.submitted⟩] 2
      (List.mem_cons_of_mem 1 (List.mem_singleton.mpr rfl))
      (fun hex => by
        obtain ⟨e, hf, _, hst⟩ := hex
        rw [show HRMS.findEntry
            [⟨1, 0, 0, 0, 1, true, HRMS.TEStatus.draft⟩,
              ⟨2, 0, 0, 0, 1, true, HRMS.TEStatus.submitted⟩] 2 =
            some ⟨2, 0, 0, 0, 1, true, HRMS.TEStatus.submitted⟩ from rfl] at hf
        injection hf with hf
        rw [← hf] at hst
        cases hst),
    List.nodup_singleton 1,
    (C3_submit_week_all_or_nothing.2 0 [1] [⟨1, 0, 0, 0, 1, true, HRMS.TEStatus.draft⟩]
      (List.nodup_singleton 1)
      (fun id hid => by
        rw [List.mem_singleton] at hid
        subst hid
        exact ⟨⟨1, 0, 0, 0, 1, true, HRMS.TEStatus.draft⟩, rfl, rfl, rfl⟩)).1⟩

/-- A conditional status write over a store maps every entry either to itself
or to the same entry with the new status, and the guard certifies the move. -/
theorem HRMS.mem_map_conditional (l : List HRMS.TimeEntry)
    (p : HRMS.TimeEntry → Bool) (st : HRMS.TEStatus)
    (hch : ∀ x, p x = true → HRMS.chainStep x.status st = true) :
    ∀ e2 ∈ l.map (fun x => if p x then { x with status := st } else x),
      ∃ e ∈ l, e.id = e2.id ∧ HRMS.chainStep e.status e2.status = true := by
  intro e2 he2
  obtain ⟨e, he, rfl⟩ := List.mem_map.mp he2
  by_cases hc : p e = true
  · rw [if_pos hc]
    exact ⟨e, he, rfl, hch e hc⟩
  · rw [if_neg hc]
    exact ⟨e, he, rfl, HRMS.chainStep_self e.status⟩

/-- C4: every timesheet operation moves an entry only along the chain
draft → submitted → approved/rejected (new entries are created in draft and
surviving entries make at most one legal move), and draft entries are the
only deletable ones: deleting a non-draft entry fails with StateError while
deleting an owned draft entry succeeds. -/
theorem C4_entry_lifecycle :
    (∀ (op : HRMS.TimesheetOp) (l l2 : List HRMS.TimeEntry),
      HRMS.applyTimesheetOp op l = Except.ok l2 →
      ∀ e2 ∈ l2, e2.status = HRMS.TEStatus.draft ∨
        ∃ e ∈ l, e.id = e2.id ∧ HRMS.chainStep e.status e2.status = true) ∧
    (∀ (requester id : Nat) (l : List HRMS.TimeEntry) (e : HRMS.TimeEntry),
      HRMS.findEntry l id = some e → e.status ≠ HRMS.TEStatus.draft →
      HRMS.deleteEntry requester id l = Except.error HRMS.WfError.stateError) ∧
    ∀ (requester id : Nat) (l : List HRMS.TimeEntry) (e : HRMS.TimeEntry),
      HRMS.findEntry l id = some e → e.status = HRMS.TEStatus.draft →
      e.employee = requester →
      HRMS.deleteEntry requester id l = Except.ok (l.filter (fun x => x.id != id)) := by
  refine ⟨?_, ?_, ?_⟩
  · intro op l l2 h e2 he2
    cases op with
    | add ap emp pid date hq b =>
      simp only [HRMS.applyTimesheetOp] at h
      unfold HRMS.addEntry at h
      split at h
      · cases h
      · injection h with h
        subst h
        rcases List.mem_append.mp he2 with hmem | hmem
        · exact Or.inr ⟨e2, hmem, rfl, HRMS.chainStep_self e2.status⟩
        · rw [List.mem_singleton] at hmem
          subst hmem
          exact Or.inl rfl
    | del requester id =>
      simp only [HRMS.applyTimesheetOp] at h
      unfold HRMS.deleteEntry at h
      split at h
      · cases h
      · split at h
        · injection h with h
          subst h
          exact Or.inr ⟨e2, List.mem_of_mem_filter he2, rfl, HRMS.chainStep_self e2.status⟩
        · cases h
    | submit employee ids =>
      simp only [HRMS.applyTimesheetOp] at h
      unfold HRMS.submitWeek at h
      split at h
      · injection h with h
        subst h
        refine Or.inr (HRMS.mem_map_conditional l
          (fun x => ids.contains x.id && x.status == HRMS.TEStatus.draft)
          HRMS.TEStatus.submitted ?_ e2 he2)
        intro x hx
        have hst : x.status = HRMS.TEStatus.draft := by
          simp only [Bool.and_eq_true, beq_iff_eq] at hx
          exact hx.2
        rw [hst]
        rfl
      · cases h
    | approveTE role id =>
      simp only [HRMS.applyTimesheetOp] at h
      unfold HRMS.approveEntry at h
      split at h
      · cases h
      · split at h
        · cases h
        · split at h
          · injection h with h
            subst h
            refine Or.inr (HRMS.mem_map_conditional l
              (fun x => x.id == id && x.status == HRMS.TEStatus.submitted)
              HRMS.TEStatus.approved ?_ e2 he2)
            intro x hx
            have hst : x.status = HRMS.TEStatus.submitted := by
              simp only [Bool.and_eq_true, beq_iff_eq] at hx
              exact hx.2
            rw [hst]
            rfl
          · cases h
    | rejectTE role id =>
      simp only [HRMS.applyTimesheetOp] at h
      unfold HRMS.rejectEntry at h
      split at h
      · cases h
      · split at h
        · cases h
        · split at h
          · injection h with h
            subst h
            refine Or.inr (HRMS.mem_map_conditional l
              (fun x => x.id == id && x.status == HRMS.TEStatus.submitted)
              HRMS.TEStatus.rejected ?_ e2 he2)
            intro x hx
            have hst : x.status = HRMS.TEStatus.submitted := by
              simp only [Bool.and_eq_true, beq_iff_eq] at hx
              exact hx.2
            rw [hst]
            rfl
          · cases h
  · intro requester id l e hf hst
    have hb : (e.status == HRMS.TEStatus.draft) = false := by simpa using hst
    simp [HRMS.deleteEntry, hf, hb]
  · intro requester id l e hf hst hemp
    have h1 : (e.status == HRMS.TEStatus.draft) = true := by simpa using hst
    have h2 : (e.employee == requester) = true := by simpa using hemp
    simp [HRMS.deleteEntry, hf, h1, h2]

/-- C4 witness: approving a submitted entry is a legal chain move, deleting
that submitted entry fails, and deleting an owned draft entry succeeds. -/
theorem C4_witness :
    HRMS.applyTimesheetOp (HRMS.TimesheetOp.approveTE ("hr") 5)
        [⟨5, 0, 0, 0, 1, true, HRMS.TEStatus.submitted⟩] =
      Except.ok [⟨5, 0, 0, 0, 1, true, HRMS.TEStatus.approved⟩] ∧
    (⟨5, 0, 0, 0, 1, true, HRMS.TEStatus.approved⟩ : HRMS.TimeEntry) ∈
      ([⟨5, 0, 0, 0, 1, true, HRMS.TEStatus.approved⟩] : List HRMS.TimeEntry) ∧
    ((⟨5, 0, 0, 0, 1, true, HRMS.TEStatus.approved⟩ : HRMS.TimeEntry).status =
        HRMS.TEStatus.draft ∨
      ∃ e ∈ ([⟨5, 0, 0, 0, 1, true, HRMS.TEStatus.submitted⟩] : List HRMS.TimeEntry),
        e.id = (⟨5, 0, 0, 0, 1, true, HRMS.TEStatus.approved⟩ : HRMS.TimeEntry).id ∧
        HRMS.chainStep e.status
          (⟨5, 0, 0, 0, 1, true, HRMS.TEStatus.approved⟩ : HRMS.TimeEntry).status = true) ∧
    HRMS.findEntry [⟨5, 0, 0, 0, 1, true, HRMS.TEStatus.submitted⟩] 5 =
      some ⟨5, 0, 0, 0, 1, true, HRMS.TEStatus.submitted⟩ ∧
    (⟨5, 0, 0, 0, 1, true, HRMS.TEStatus.submitted⟩ : HRMS.TimeEntry).status ≠
      HRMS.TEStatus.draft ∧
    HRMS.deleteEntry 0 5 [⟨5, 0, 0, 0, 1, true, HRMS.TEStatus.submitted⟩] =
      Except.error HRMS.WfError.stateError ∧
    HRMS.findEntry [⟨7, 3, 0, 0, 1, false, HRMS.TEStatus.draft⟩] 7 =
      some ⟨7, 3, 0, 0, 1, false, HRMS.TEStatus.draft⟩ ∧
    HRMS.deleteEntry 3 7 [⟨7, 3, 0, 0, 1, false, HRMS.TEStatus.draft⟩] =
      Except.ok ([⟨7, 3, 0, 0, 1, false, HRMS.TEStatus.draft⟩].filter
        (fun x => x.id != 7)) :=
  ⟨rfl, List.mem_singleton.mpr rfl,
    C4_entry_lifecycle.1 (HRMS.TimesheetOp.approveTE ("hr") 5)
      [⟨5, 0, 0, 0, 1, true, HRMS.TEStatus.submitted⟩]
      [⟨5, 0, 0, 0, 1, true, HRMS.TEStatus.approved⟩] rfl
      ⟨5, 0, 0, 0, 1, true, HRMS.TEStatus.approved⟩ (List.mem_singleton.mpr rfl),
    rfl, by decide,
    C4_entry_lifecycle.2.1 0 5 [⟨5, 0, 0, 0, 1, true, HRMS.TEStatus.submitted⟩]
      ⟨5, 0, 0, 0, 1, true, HRMS.TEStatus.submitted⟩ rfl (by decide),
    rfl,
    C4_entry_lifecycle.2.2 3 7 [⟨7, 3, 0, 0, 1, false, HRMS.TEStatus.draft⟩]
      ⟨7, 3, 0, 0, 1, false, HRMS.TEStatus.draft⟩ rfl rfl rfl⟩

/-- C6: per employee and day, attendance moves strictly forward through
NoRecord → CheckedIn → CheckedOut: a second clock-in fails with StateError, a
clock-out without a prior clock-in or after a clock-out fails with
StateError, and each successful operation advances the phase by exactly one. -/
theorem C6_attendance_state_machine (st : Option HRMS.AttendanceRecord) (now : Nat)
    (hwf : HRMS.attOk st = true) :
    (1 ≤ HRMS.attendancePhase st →
      HRMS.clockIn now st = Except.error HRMS.WfError.stateError) ∧
    (HRMS.attendancePhase st = 0 → ∃ r, HRMS.clockIn now st = Except.ok r ∧
      HRMS.attendancePhase (some r) = 1 ∧ HRMS.attOk (some r) = true) ∧
    (HRMS.attendancePhase st ≠ 1 →
      HRMS.clockOut now st = Except.error HRMS.WfError.stateError) ∧
    (HRMS.attendancePhase st = 1 → ∃ r, HRMS.clockOut now st = Except.ok r ∧
      HRMS.attendancePhase (some r) = 2 ∧ HRMS.attOk (some r) = true) := by
  cases st with
  | none =>
    refine ⟨?_, ?_, ?_, ?_⟩
    · intro h1
      simp [HRMS.attendancePhase] at h1
    · intro _
      exact ⟨⟨some now, none, "present"⟩, rfl, rfl, rfl⟩
    · intro _
      rfl
    · intro h1
      simp [HRMS.attendancePhase] at h1
  | some r =>
    obtain ⟨ci, co, sst⟩ := r
    cases ci with
    | none =>
      cases co with
      | none =>
        refine ⟨?_, ?_, ?_, ?_⟩
        · intro h1
          simp [HRMS.attendancePhase] at h1
        · intro _
          exact ⟨⟨some now, none, "present"⟩, rfl, rfl, rfl⟩
        · intro _
          rfl
        · intro h1
          simp [HRMS.attendancePhase] at h1
      | some cov =>
        exfalso
        simp [HRMS.attOk] at hwf
    | some civ =>
      cases co with
      | none =>
        refine ⟨?_, ?_, ?_, ?_⟩
        · intro _
          rfl
        · intro h1
          simp [HRMS.attendancePhase] at h1
        · intro hne
          exact absurd rfl hne
        · intro _
          exact ⟨⟨some civ, some now, sst⟩, rfl, rfl, rfl⟩
      | some cov =>
        refine ⟨?_, ?_, ?_, ?_⟩
        · intro _
          rfl
        · intro h1
          simp [HRMS.attendancePhase] at h1
        · intro _
          rfl
        · intro h1
          simp [HRMS.attendancePhase] at h1

/-- C6 witness: a fresh day clocks in once, a checked-in day refuses a second
clock-in and clocks out, and a fresh day refuses a clock-out. -/
theorem C6_witness :
    HRMS.attOk (none : Option HRMS.AttendanceRecord) = true ∧
    HRMS.attendancePhase (none : Option HRMS.AttendanceRecord) = 0 ∧
    (∃ r, HRMS.clockIn 9 (none : Option HRMS.AttendanceRecord) = Except.ok r ∧
      HRMS.attendancePhase (some r) = 1 ∧ HRMS.attOk (some r) = true) ∧
    HRMS.attOk (some ⟨some 5, none, "present"⟩) = true ∧
    1 ≤ HRMS.attendancePhase (some ⟨some 5, none, "present"⟩) ∧
    HRMS.clockIn 9 (some ⟨some 5, none, "present"⟩) =
      Except.error HRMS.WfError.stateError ∧
    HRMS.attendancePhase (some ⟨some 5, none, "present"⟩) = 1 ∧
    (∃ r, HRMS.clockOut 9 (some ⟨some 5, none, "present"⟩) = Except.ok r ∧
      HRMS.attendancePhase (some r) = 2 ∧ HRMS.attOk (some r) = true) ∧
    HRMS.attendancePhase (none : Option HRMS.AttendanceRecord) ≠ 1 ∧
    HRMS.clockOut 9 (none : Option HRMS.AttendanceRecord) =
      Except.error HRMS.WfError.stateError :=
  ⟨rfl, rfl, (C6_attendance_state_machine none 9 rfl).2.1 rfl, rfl, by decide,
    (C6_attendance_state_machine (some ⟨some 5, none, "present"⟩) 9 rfl).1 (by decide),
    rfl, (C6_attendance_state_machine (some ⟨some 5, none, "present"⟩) 9 rfl).2.2.2 rfl,
    by decide, (C6_attendance_state_machine none 9 rfl).2.2.1 (by decide)⟩

/-- C7: addEntry rejects with ValidationError any hours outside [0.25, 24] or
off the quarter-hour grid and accepts hours satisfying both (for an active
project); the Boolean check is equivalent to that arithmetic statement, and
in particular 2.3 is rejected while 2.25 is accepted. -/
theorem C7_hours_validation :
    (∀ h : ℚ, HRMS.hoursValid h = true ↔ (1 / 4 ≤ h ∧ h ≤ 24 ∧ ∃ n : ℤ, h = n / 4)) ∧
    (∀ (ap : List Nat) (emp pid date : Nat) (hq : ℚ) (b : Bool)
      (l : List HRMS.TimeEntry),
      ap.contains pid = true →
      (HRMS.hoursValid hq = false →
        HRMS.addEntry ap emp pid date hq b l = Except.error HRMS.WfError.validationError) ∧
      (HRMS.hoursValid hq = true →
        HRMS.addEntry ap emp pid date hq b l =
          Except.ok (l ++ [⟨HRMS.freshId l, emp, pid, date, hq, b, HRMS.TEStatus.draft⟩]))) ∧
    HRMS.hoursValid (mkRat 23 10) = false ∧
    HRMS.hoursValid (mkRat 9 4) = true ∧
    (mkRat 23 10 : ℚ) = 2.3 ∧ (mkRat 9 4 : ℚ) = 2.25 := by
  refine ⟨?_, ?_, by decide, by decide, by norm_num [Rat.mkRat_eq_div], by norm_num [Rat.mkRat_eq_div]⟩
  · intro h
    unfold HRMS.hoursValid
    constructor
    · intro hv
      simp only [Bool.and_eq_true, decide_eq_true_eq] at hv
      obtain ⟨⟨hlo, hhi⟩, hden⟩ := hv
      refine ⟨by rwa [HRMS.mkRat_one_four] at hlo,
        by rwa [HRMS.mkRat_twentyfour] at hhi, ?_⟩
      apply HRMS.den_dvd_four
      have hmod : 4 % h.den = 0 := by simpa using hden
      exact Nat.dvd_of_mod_eq_zero hmod
    · rintro ⟨hlo, hhi, n, hn⟩
      have hd : h.den ∣ 4 := HRMS.den_dvd_four_of_quarter h n hn
      simp only [Bool.and_eq_true, decide_eq_true_eq]
      refine ⟨⟨by rwa [HRMS.mkRat_one_four], by rwa [HRMS.mkRat_twentyfour]⟩, ?_⟩
      simpa using Nat.mod_eq_zero_of_dvd hd
  · intro ap emp pid date hq b l hcont
    constructor
    · intro hv
      simp [HRMS.addEntry, hv, hcont]
    · intro hv
      simp [HRMS.addEntry, hv, hcont]
      simpa using hcont

/-- C7 witness: with an active project, hours 2.3 (as 23/10) is rejected and
hours 2.25 (as 9/4) is accepted. -/
theorem C7_witness :
    ([7] : List Nat).contains 7 = true ∧
    HRMS.hoursValid (mkRat 23 10) = false ∧
    HRMS.addEntry [7] 0 7 0 (mkRat 23 10) true [] =
      Except.error HRMS.WfError.validationError ∧
    HRMS.hoursValid (mkRat 9 4) = true ∧
    HRMS.addEntry [7] 0 7 0 (mkRat 9 4) true [] =
      Except.ok ([] ++ [⟨HRMS.freshId [], 0, 7, 0, mkRat 9 4, true, HRMS.TEStatus.draft⟩]) :=
  ⟨rfl, by decide,
    (C7_hours_validation.2.1 [7] 0 7 0 (mkRat 23 10) true [] rfl).1 (by decide),
    by decide,
    (C7_hours_validation.2.1 [7] 0 7 0 (mkRat 9 4) true [] rfl).2 (by decide)⟩

/-- C8: weeklySummary sums exactly the entries of the employee whose date
falls in the 7-day window starting at week_start — total, billable and
non-billable hours — and the billable percentage is the rounded ratio when
total hours are positive and zero when they are zero. -/
theorem C8_weekly_summary (l : List HRMS.TimeEntry) (emp ws : Nat) :
    (HRMS.weeklySummary l emp ws).total_hours =
      ((l.filter (fun e => e.employee == emp &&
        (HRMS.getWeekDates ws).contains e.date)).map HRMS.TimeEntry.hours).sum ∧
    (HRMS.weeklySummary l emp ws).billable_hours =
      (((l.filter (fun e => e.employee == emp &&
        (HRMS.getWeekDates ws).contains e.date)).filter
          (fun e => e.is_billable)).map HRMS.TimeEntry.hours).sum ∧
    (HRMS.weeklySummary l emp ws).non_billable_hours =
      (HRMS.weeklySummary l emp ws).total_hours -
        (HRMS.weeklySummary l emp ws).billable_hours ∧
    (∀ d : Nat, (HRMS.getWeekDates ws).contains d = true ↔ ws ≤ d ∧ d < ws + 7) ∧
    (0 < (HRMS.weeklySummary l emp ws).total_hours →
      (HRMS.weeklySummary l emp ws).billable_percentage =
        round ((HRMS.weeklySummary l emp ws).billable_hours /
          (HRMS.weeklySummary l emp ws).total_hours * 100)) ∧
    ((HRMS.weeklySummary l emp ws).total_hours = 0 →
      (HRMS.weeklySummary l emp ws).billable_percentage = 0) := by
  refine ⟨?_, ?_, ?_, ?_, ?_, ?_⟩
  · simp only [HRMS.weeklySummary]
    rw [HRMS.foldl_add_hours]
    simp
  · simp only [HRMS.weeklySummary]
    rw [HRMS.foldl_add_billable]
    simp
  · rfl
  · intro d
    exact HRMS.getWeekDates_contains ws d
  · intro hpos
    simp only [HRMS.weeklySummary] at hpos ⊢
    rw [if_pos hpos]
  · intro hz
    simp only [HRMS.weeklySummary] at hz ⊢
    rw [if_neg (by rw [hz]; exact lt_irrefl 0)]

/-- C8 witness: with no entries the total is zero and the billable
percentage is reported as zero rather than dividing by zero. -/
theorem C8_witness :
    (HRMS.weeklySummary [] 0 0).total_hours = 0 ∧
    (HRMS.weeklySummary [] 0 0).billable_percentage = 0 :=
  ⟨rfl, (C8_weekly_summary [] 0 0).2.2.2.2.2 rfl⟩

/-- C10: every account created through the public sign-up form is registered
with role hr, which belongs to the approver role set, so every
self-registered user passes both the leave-page approver gate and the
timesheets manager gate. -/
theorem C10_signup_role_is_approver :
    HRMS.approverRoles.contains HRMS.signupRole = true ∧
    HRMS.canApprove HRMS.signupRole = true ∧
    HRMS.isManager HRMS.signupRole = true := by
  refine ⟨rfl, rfl, rfl⟩
